import Mathlib

/-!
# Verification of the named-events listener-registry semantics

A shallow embedding of the core of the `named-events` package
(`createCustomEvent`, `createValueBackedEvent`, `joinRemoveListeners`,
`aryRemoveItem`).

Modelling conventions:

* Listeners are opaque values compared by identity; we model them as `Nat`
  identifiers.  A registry (`const listeners:TListener[]`) is a `List Nat`
  in insertion order.
* JavaScript `===` on listeners and on stored values is modelled by
  decidable equality on the identifier type.
* `ary.splice(i,1)` inside `aryRemoveItem` is modelled functionally: the
  function returns the updated list together with the boolean result.
  The `if(!ary)` null-guard of the source is vacuous here because a Lean
  list is never null.
* The dispatch loop `for(const l of listeners){ ... }` iterates a JS
  array iterator over the *live* array: at each step the iterator holds a
  cursor `idx`; if `idx` is smaller than the current length it yields
  `listeners[idx]` and advances, otherwise iteration ends.  A listener
  invoked during dispatch may mutate the same array (self-removal through
  its remover), so the loop is modelled index-by-index over the evolving
  registry (`dispatchAux`).  The fuel argument is the initial array
  length; since a listener action never grows the registry the fuel is
  never exhausted before the cursor passes the end.
-/

/-- `aryRemoveItem(ary,item)` from the source: scans from index `0` and
splices out the first element identical to `item`, returning whether a
removal happened.  Functional rendering: result list plus the boolean. -/
def aryRemoveItem {α : Type} [DecidableEq α] : List α → α → List α × Bool
  | [], _ => ([], false)
  | x :: xs, item =>
    if x = item then (xs, true)
    else
      let r := aryRemoveItem xs item
      (x :: r.1, r.2)

/-- `removeListener(listener)` of `createCustomEvent`: delegates to
`aryRemoveItem`, discarding the boolean. -/
def removeListener (reg : List Nat) (f : Nat) : List Nat :=
  (aryRemoveItem reg f).1

/-- `addListener(listener)` of `createCustomEvent`: `listeners.push(listener)`. -/
def addListener (reg : List Nat) (f : Nat) : List Nat :=
  reg ++ [f]

/-- Registration through the callable `evt(listener)` form: the same
`listeners.push(listener)` as `addListener` (the returned remover is
modelled by `removerCall`). -/
def evtRegister (reg : List Nat) (f : Nat) : List Nat :=
  reg ++ [f]

/-- One invocation of the remover closure `()=>{ removeListener(listener); }`
returned by `evt(listener)`. -/
def removerCall (reg : List Nat) (f : Nat) : List Nat :=
  removeListener reg f

/-- What a listener does to the registry while it is being invoked during
dispatch: nothing, or remove itself through its own remover. -/
inductive LAct : Type
  | pass
  | selfRemove
deriving DecidableEq

/-- Apply a listener's dispatch-time action to the live registry. -/
def applyAct (act : Nat → LAct) (l : Nat) (reg : List Nat) : List Nat :=
  match act l with
  | LAct.pass => reg
  | LAct.selfRemove => (aryRemoveItem reg l).1

/-- The `trigger` loop of `createCustomEvent`, cursor-by-cursor over the
live registry: at cursor `idx`, if `idx < reg.length` the listener
`reg[idx]` is invoked with the trigger arguments `args` (recorded in the
returned log), its action is applied to the registry, and the cursor
advances.  Returns the final registry and the invocation log. -/
def dispatchAux {A : Type} (act : Nat → LAct) (args : A) :
    Nat → List Nat → Nat → List Nat × List (Nat × A)
  | 0, reg, _ => (reg, [])
  | fuel + 1, reg, idx =>
    if h : idx < reg.length then
      let l := reg[idx]
      let reg1 := applyAct act l reg
      let r := dispatchAux act args fuel reg1 (idx + 1)
      (r.1, (l, args) :: r.2)
    else
      (reg, [])

/-- `trigger(...args)`: run the dispatch loop from cursor `0` with fuel
equal to the current registry length. -/
def trigger {A : Type} (act : Nat → LAct) (args : A) (reg : List Nat) :
    List Nat × List (Nat × A) :=
  dispatchAux act args reg.length reg 0

/-- A concrete behavior assignment: listener `1` removes itself through its
own remover when invoked; every other listener is passive. -/
def selfRemoveOne : Nat → LAct :=
  fun l => if l = 1 then LAct.selfRemove else LAct.pass

/-!
## The value-backed event source (`createValueBackedEvent`)

The stored value and the listener registry of one source.  JS values of the
stored type are modelled by an arbitrary type `V` with decidable equality
standing for `===`; the runtime check `typeof v === 'function'` is the
parameter `isFn`, and applying a function-classified value to the current
value (`v=(v as any)(value)`) is the parameter `app`.  Dispatch is recorded
as an invocation log `List (Nat × V)`; the listeners of a value-backed
source are modelled as passive during its dispatch loop (the re-entrant
case is covered by the custom-event model above). -/
structure VBState (V : Type) where
  value : V
  listeners : List Nat
deriving DecidableEq

/-- `setValue(v)` of `createValueBackedEvent`: if `typeof v === 'function'`
the candidate is `v(value)`, otherwise `v` itself; an identical candidate
returns the stored value with no mutation and no dispatch; otherwise the
stored value becomes the candidate, every listener is invoked in insertion
order with the new value, and the new value is returned.  Result:
(new state, invocation log, returned value). -/
def setValueVB {V : Type} [DecidableEq V] (isFn : V → Bool) (app : V → V → V)
    (st : VBState V) (v : V) : VBState V × List (Nat × V) × V :=
  let c := if isFn v then app v st.value else v
  if c = st.value then
    (st, [], st.value)
  else
    (VBState.mk c st.listeners, st.listeners.map (fun l => (l, c)), c)

/-- The raw `trigger(v)` of `createValueBackedEvent`: compare with the
stored value, return silently when identical, otherwise store `v` and
dispatch it to every listener in insertion order (no `typeof` check, no
return value).  Result: (new state, invocation log). -/
def triggerVB {V : Type} [DecidableEq V] (st : VBState V) (v : V) :
    VBState V × List (Nat × V) :=
  if v = st.value then
    (st, [])
  else
    (VBState.mk v st.listeners, st.listeners.map (fun l => (l, v)))

/-- `getValue()`: read the stored value. -/
def getValueVB {V : Type} (st : VBState V) : V :=
  st.value

/-- One mutating call on a value-backed source: `setValue(v)` or `trigger(v)`. -/
inductive VBOp (V : Type) : Type
  | set (v : V)
  | trig (v : V)

/-- The candidate value an operation proposes against the current value
`cur`: `setValue` resolves a function argument by applying it to `cur`,
`trigger` always uses its argument directly. -/
def vbCandidate {V : Type} (isFn : V → Bool) (app : V → V → V) (cur : V) :
    VBOp V → V
  | VBOp.set v => if isFn v then app v cur else v
  | VBOp.trig v => v

/-- The state after one mutating call on a value-backed source. -/
def stepOp {V : Type} [DecidableEq V] (isFn : V → Bool) (app : V → V → V)
    (st : VBState V) : VBOp V → VBState V
  | VBOp.set v => (setValueVB isFn app st v).1
  | VBOp.trig v => (triggerVB st v).1

/-- Run a sequence of `setValue`/`trigger` calls on a value-backed source,
keeping only the state. -/
def runOps {V : Type} [DecidableEq V] (isFn : V → Bool) (app : V → V → V)
    (st : VBState V) : List (VBOp V) → VBState V
  | [] => st
  | op :: rest => runOps isFn app (stepOp isFn app st op) rest

/-- The candidates of the successful operations of a run: an operation is
successful when its resolved candidate differs from the value current at
that moment, and a successful candidate becomes the current value for the
rest of the run. -/
def succCandidates {V : Type} [DecidableEq V] (isFn : V → Bool)
    (app : V → V → V) (cur : V) : List (VBOp V) → List V
  | [] => []
  | op :: rest =>
    let c := vbCandidate isFn app cur op
    if c = cur then succCandidates isFn app cur rest
    else c :: succCandidates isFn app c rest

/-!
## `joinRemoveListeners`

The supplied removers are modelled as identifiers with an arbitrary effect
`effOf r : S → S` on some state (a remover of this library removes one
occurrence of its listener from a registry, or does nothing when none is
left; the theorem holds for every effect).  The combined remover is the
loop `for(const l of listeners){ l(); }`; the call log records which
removers were invoked, in order. -/
def runJoined {S : Type} (effOf : Nat → S → S) : List Nat → S → S × List Nat
  | [], s => (s, [])
  | r :: rest, s =>
    let r2 := runJoined effOf rest (effOf r s)
    (r2.1, r :: r2.2)


/-- Removal never grows the registry. -/
theorem aryRemoveItem_length_le {α : Type} [DecidableEq α]
    (ary : List α) (item : α) : (aryRemoveItem ary item).1.length ≤ ary.length := by
  induction ary with
  | nil => simp [aryRemoveItem]
  | cons x xs ih =>
    by_cases hx : x = item
    · simp [aryRemoveItem, hx]
    · simp [aryRemoveItem, hx]
      omega

/-- A listener action never grows the registry. -/
theorem applyAct_length_le (act : Nat → LAct) (l : Nat) (reg : List Nat) :
    (applyAct act l reg).length ≤ reg.length := by
  cases h : act l with
  | pass => simp [applyAct, h]
  | selfRemove => simpa [applyAct, h] using aryRemoveItem_length_le reg l

/-- An item absent from the list is not removed: `aryRemoveItem` scans to
the end and returns the list unchanged with `false`. -/
theorem aryRemoveItem_not_mem {α : Type} [DecidableEq α]
    {ary : List α} {item : α} (h : item ∉ ary) :
    aryRemoveItem ary item = (ary, false) := by
  induction ary with
  | nil => simp [aryRemoveItem]
  | cons x xs ih =>
    have hx : ¬ x = item := fun he => h (he ▸ List.mem_cons_self x xs)
    have hxs : item ∉ xs := fun hm => h (List.mem_cons_of_mem x hm)
    simp [aryRemoveItem, hx, ih hxs]

/-- `aryRemoveItem` removes exactly the first occurrence (by identity),
keeping the surrounding order intact. -/
theorem aryRemoveItem_first {α : Type} [DecidableEq α]
    (pre post : List α) (item : α) (h : item ∉ pre) :
    aryRemoveItem (pre ++ item :: post) item = (pre ++ post, true) := by
  induction pre with
  | nil => simp [aryRemoveItem]
  | cons x xs ih =>
    have hx : ¬ x = item := fun he => h (he ▸ List.mem_cons_self x xs)
    have hxs : item ∉ xs := fun hm => h (List.mem_cons_of_mem x hm)
    simp [aryRemoveItem, hx, ih hxs]

/-- Removing an element decrements its occurrence count by one (and a
missing element keeps count `0`). -/
theorem aryRemoveItem_count {α : Type} [DecidableEq α]
    (ary : List α) (item : α) :
    ((aryRemoveItem ary item).1.count item) = ary.count item - 1 := by
  induction ary with
  | nil => simp [aryRemoveItem]
  | cons x xs ih =>
    by_cases hx : x = item
    · simp [aryRemoveItem, hx]
    · simp [aryRemoveItem, hx, ih, List.count_cons]

/-- Past the end of the registry the dispatch loop stops, whatever the fuel. -/
theorem dispatchAux_stop {A : Type} (act : Nat → LAct) (args : A)
    (fuel : Nat) (reg : List Nat) (idx : Nat) (h : reg.length ≤ idx) :
    dispatchAux act args fuel reg idx = (reg, []) := by
  cases fuel with
  | zero => rfl
  | succ k => simp [dispatchAux, Nat.not_lt.mpr h]

/-- The dispatch loop does not depend on the fuel, as long as the fuel covers
the distance from the cursor to the end of the registry (listener actions
never grow the registry, so the distance only shrinks). -/
theorem dispatchAux_fuel {A : Type} (act : Nat → LAct) (args : A) :
    ∀ f1 f2 reg idx, reg.length - idx ≤ f1 → reg.length - idx ≤ f2 →
      dispatchAux act args f1 reg idx = dispatchAux act args f2 reg idx := by
  intro f1
  induction f1 with
  | zero =>
    intro f2 reg idx h1 h2
    have hge : reg.length ≤ idx := by omega
    rw [dispatchAux_stop act args 0 reg idx hge, dispatchAux_stop act args f2 reg idx hge]
  | succ k ih =>
    intro f2 reg idx h1 h2
    by_cases h : idx < reg.length
    · cases f2 with
      | zero => omega
      | succ m =>
        simp only [dispatchAux, dif_pos h]
        have hlen := applyAct_length_le act (reg[idx]) reg
        rw [ih m (applyAct act (reg[idx]) reg) (idx + 1) (by omega) (by omega)]
    · have hge : reg.length ≤ idx := Nat.not_lt.mp h
      rw [dispatchAux_stop act args (k + 1) reg idx hge,
        dispatchAux_stop act args f2 reg idx hge]

/-- When every listener from the cursor onwards is passive, dispatch leaves
the registry unchanged and invokes exactly the listeners from the cursor to
the end, in order, each with the trigger arguments. -/
theorem dispatchAux_pass {A : Type} (act : Nat → LAct) (args : A) :
    ∀ fuel reg idx, reg.length - idx ≤ fuel →
      (∀ l ∈ reg.drop idx, act l = LAct.pass) →
      dispatchAux act args fuel reg idx =
        (reg, (reg.drop idx).map (fun l => (l, args))) := by
  intro fuel
  induction fuel with
  | zero =>
    intro reg idx h1 _
    have hge : reg.length ≤ idx := by omega
    rw [dispatchAux_stop act args 0 reg idx hge, List.drop_eq_nil_of_le hge]
    simp
  | succ k ih =>
    intro reg idx h1 hpass
    by_cases h : idx < reg.length
    · have hdrop := List.drop_eq_getElem_cons (l := reg) (n := idx) h
      have hmem : reg[idx] ∈ reg.drop idx := by rw [hdrop]; exact List.mem_cons_self _ _
      have hact : act (reg[idx]) = LAct.pass := hpass _ hmem
      simp only [dispatchAux, dif_pos h]
      have happ : applyAct act (reg[idx]) reg = reg := by simp [applyAct, hact]
      rw [happ, ih reg (idx + 1) (by omega) (fun l hl => hpass l (by rw [hdrop]; exact List.mem_cons_of_mem _ hl))]
      rw [hdrop, List.map_cons]
    · have hge : reg.length ≤ idx := Nat.not_lt.mp h
      rw [dispatchAux_stop act args (k + 1) reg idx hge, List.drop_eq_nil_of_le hge]
      simp

/-- Dispatch over a registry `pre ++ s :: post` in which every listener of
`pre` and `post` is passive and `s` (not occurring in `pre`) removes itself
when invoked: the cursor walks `pre`, invokes `s`, whose removal shifts
`post` one slot to the left so that the cursor then skips the head of
`post`, and the remaining elements of `post` are invoked.  The final
registry is `pre ++ post`. -/
theorem dispatchAux_selfRemove {A : Type} (act : Nat → LAct) (args : A)
    (s : Nat) (hs : act s = LAct.selfRemove) (pre post : List Nat)
    (hpost : ∀ l ∈ post, act l = LAct.pass) (hsp : s ∉ pre) :
    ∀ fuel idx, idx ≤ pre.length →
      (∀ l ∈ pre.drop idx, act l = LAct.pass) →
      (pre ++ s :: post).length - idx ≤ fuel →
      dispatchAux act args fuel (pre ++ s :: post) idx =
        (pre ++ post, (pre.drop idx ++ s :: post.drop 1).map (fun l => (l, args))) := by
  intro fuel
  induction fuel with
  | zero =>
    intro idx hidx _ hfuel
    simp only [List.length_append, List.length_cons] at hfuel
    omega
  | succ k ih =>
    intro idx hidx hpre hfuel
    have h : idx < (pre ++ s :: post).length := by
      simp only [List.length_append, List.length_cons]; omega
    simp only [dispatchAux, dif_pos h]
    by_cases hlt : idx < pre.length
    · have hget : (pre ++ s :: post)[idx] = pre[idx] := List.getElem_append_left hlt
      have hdrop := List.drop_eq_getElem_cons (l := pre) (n := idx) hlt
      have hmem : pre[idx] ∈ pre.drop idx := by
        rw [hdrop]; exact List.mem_cons_self _ _
      have hact : act ((pre ++ s :: post)[idx]) = LAct.pass := by
        rw [hget]; exact hpre _ hmem
      have happ : applyAct act ((pre ++ s :: post)[idx]) (pre ++ s :: post) = pre ++ s :: post := by
        simp [applyAct, hact]
      rw [happ, ih (idx + 1) (by omega)
        (fun l hl => hpre l (by rw [hdrop]; exact List.mem_cons_of_mem _ hl))
        (by simp only [List.length_append, List.length_cons] at hfuel ⊢; omega)]
      rw [hget, hdrop, List.cons_append, List.map_cons]
    · have hidx' : idx = pre.length := by omega
      have hget : (pre ++ s :: post)[idx] = s := by
        subst hidx'
        rw [List.getElem_append_right (Nat.le_refl _)]
        simp
      have happ : applyAct act ((pre ++ s :: post)[idx]) (pre ++ s :: post) = pre ++ post := by
        rw [hget]
        simp only [applyAct, hs]
        rw [aryRemoveItem_first pre post s hsp]
      rw [happ]
      have hdrop2 : (pre ++ post).drop (idx + 1) = post.drop 1 := by
        subst hidx'
        rw [show pre.length + 1 = pre.length + 1 from rfl, ← List.drop_drop,
          List.drop_left]
      rw [dispatchAux_pass act args k (pre ++ post) (idx + 1)
        (by simp only [List.length_append, List.length_cons] at hfuel ⊢; omega)
        (by
          intro l hl
          rw [hdrop2] at hl
          exact hpost l (List.mem_of_mem_drop hl))]
      rw [hget, hdrop2, hidx', List.drop_length, List.nil_append, List.map_cons]


/-- One mutating call keeps the listeners and stores the resolved candidate
exactly when it differs from the current value. -/
theorem stepOp_eq {V : Type} [DecidableEq V] (isFn : V → Bool)
    (app : V → V → V) (st : VBState V) (op : VBOp V) :
    stepOp isFn app st op =
      if vbCandidate isFn app st.value op = st.value then st
      else VBState.mk (vbCandidate isFn app st.value op) st.listeners := by
  cases op with
  | set v =>
    simp only [stepOp, setValueVB, vbCandidate]
    split <;> split <;> rfl
  | trig v =>
    simp only [stepOp, triggerVB, vbCandidate]
    split <;> rfl

/-- C1: a listener that removes itself during dispatch does NOT leave every
later-registered listener invoked in the same trigger call.  Concretely, in
the registry `[1, 2, 3]` where listener `1` removes itself when invoked and
`2` and `3` are passive, `trigger` invokes `1` and `3` but never invokes
`2`, the listener registered immediately after the self-removing one: the
splice shifts the array under the live iterator, so the cursor skips one
element.  This refutes the claim that every listener registered after the
self-removing listener is still invoked in that same trigger call. -/
theorem c1_self_removal_counterexample :
    trigger selfRemoveOne () [1, 2, 3] = ([2, 3], [(1, ()), (3, ())]) ∧
    ((2, ()) ∈ (trigger selfRemoveOne () [1, 2, 3]).2 → False) := by
  exact ⟨by decide, by decide⟩

/-- C1 (amended): in a registry `pre ++ s :: post` where `s` removes itself
when invoked (and occurs nowhere else) and all other listeners are passive,
`trigger` invokes the listeners of `pre`, then `s`, then the listeners of
`post` EXCEPT its first element, which the live iterator skips because the
removal shifted the array; the final registry is `pre ++ post`, and on the
next trigger call the removed listener `s` is not invoked. -/
theorem c1_self_removal_amended {A : Type} (args : A) (act : Nat → LAct)
    (pre post : List Nat) (s : Nat)
    (hpre : ∀ l ∈ pre, act l = LAct.pass)
    (hpost : ∀ l ∈ post, act l = LAct.pass)
    (hs : act s = LAct.selfRemove)
    (hspre : s ∉ pre) (hspost : s ∉ post) :
    trigger act args (pre ++ s :: post) =
      (pre ++ post, (pre ++ s :: post.drop 1).map (fun l => (l, args))) ∧
    trigger act args (pre ++ post) =
      (pre ++ post, (pre ++ post).map (fun l => (l, args))) ∧
    ∀ x ∈ (trigger act args (pre ++ post)).2, x.1 ≠ s := by
  have h2 : trigger act args (pre ++ post) =
      (pre ++ post, (pre ++ post).map (fun l => (l, args))) := by
    unfold trigger
    have hp : ∀ l ∈ (pre ++ post).drop 0, act l = LAct.pass := by
      simp only [List.drop_zero]
      intro l hl
      rcases List.mem_append.mp hl with h | h
      · exact hpre l h
      · exact hpost l h
    simpa using dispatchAux_pass act args (pre ++ post).length (pre ++ post) 0
      (by omega) hp
  refine ⟨?_, h2, ?_⟩
  · unfold trigger
    simpa using dispatchAux_selfRemove act args s hs pre post hpost hspre
      (pre ++ s :: post).length 0 (Nat.zero_le _) (by simpa using hpre) (by omega)
  · intro x hx
    rw [h2] at hx
    rcases List.mem_map.mp hx with ⟨l, hl, hlx⟩
    intro hxs
    have hls : l = s := by rw [← hlx] at hxs; simpa using hxs
    rcases List.mem_append.mp hl with h | h
    · exact hspre (hls ▸ h)
    · exact hspost (hls ▸ h)

/-- Witness for the amended C1 at `pre = [0]`, `s = 1`, `post = [2, 3]`:
the first trigger invokes `0`, `1`, `3` (skipping `2`) and leaves the
registry `[0, 2, 3]`; the second trigger invokes exactly `[0, 2, 3]`, never
the removed listener `1`. -/
theorem c1_self_removal_amended_witness :
    trigger selfRemoveOne () ([0] ++ 1 :: [2, 3]) =
      ([0] ++ [2, 3], ([0] ++ 1 :: [2, 3].drop 1).map (fun l => (l, ()))) ∧
    trigger selfRemoveOne () ([0] ++ [2, 3]) =
      ([0] ++ [2, 3], ([0] ++ [2, 3]).map (fun l => (l, ()))) ∧
    ∀ x ∈ (trigger selfRemoveOne () ([0] ++ [2, 3])).2, x.1 ≠ 1 :=
  c1_self_removal_amended () selfRemoveOne [0] [2, 3] 1
    (by decide) (by decide) (by decide) (by decide) (by decide)

/-- C2: the remover returned by the callable `evt(listener)` form is NOT
idempotent when the same listener function is registered more than once.
Registering listener `0` twice yields the registry `[0, 0]`; the first call
of a remover removes the first occurrence (`[0, 0] → [0]`), and a second
call of the very same remover removes the remaining occurrence
(`[0] → []`) instead of being a no-op, because the remover merely re-runs
`removeListener(listener)`. -/
theorem c2_remover_counterexample :
    evtRegister (evtRegister [] 0) 0 = [0, 0] ∧
    removerCall [0, 0] 0 = [0] ∧
    removerCall (removerCall [0, 0] 0) 0 = [] ∧
    removerCall (removerCall [0, 0] 0) 0 ≠ removerCall [0, 0] 0 := by
  exact ⟨rfl, by decide, by decide, by decide⟩

/-- C2 (amended): every call of the remover removes the first occurrence
(by identity) of its listener; a call is a safe no-op exactly when no
occurrence is left.  When the listener has a single registration the
remover is therefore idempotent, but with duplicate registrations each call
removes one further occurrence (the occurrence count drops by one per
call). -/
theorem c2_remover_amended (reg : List Nat) (f : Nat) :
    (f ∉ reg → removerCall reg f = reg) ∧
    (∀ pre post, reg = pre ++ f :: post → f ∉ pre →
      removerCall reg f = pre ++ post) ∧
    (reg.count f = 1 → removerCall (removerCall reg f) f = removerCall reg f) ∧
    (removerCall reg f).count f = reg.count f - 1 := by
  refine ⟨?_, ?_, ?_, ?_⟩
  · intro h
    simp [removerCall, removeListener, aryRemoveItem_not_mem h]
  · intro pre post hre hfp
    subst hre
    simp [removerCall, removeListener, aryRemoveItem_first pre post f hfp]
  · intro h1
    have hc : (removerCall reg f).count f = 0 := by
      have := aryRemoveItem_count reg f
      simp only [removerCall, removeListener]
      omega
    have hnm : f ∉ removerCall reg f := List.count_eq_zero.mp hc
    have hstep : aryRemoveItem (removerCall reg f) f = (removerCall reg f, false) :=
      aryRemoveItem_not_mem hnm
    simp only [removerCall, removeListener] at hstep ⊢
    rw [hstep]
  · simpa [removerCall, removeListener] using aryRemoveItem_count reg f

/-- Witness for the amended C2: a remover call on a registry without the
listener is a no-op, a call removes the first occurrence, and with a single
registration the remover is idempotent. -/
theorem c2_remover_amended_witness :
    removerCall [7] 5 = [7] ∧ removerCall [3, 7] 3 = [7] ∧
    removerCall (removerCall [9] 9) 9 = removerCall [9] 9 :=
  ⟨(c2_remover_amended [7] 5).1 (by decide),
   (c2_remover_amended [3, 7] 3).2.1 [] [7] rfl (by decide),
   (c2_remover_amended [9] 9).2.2.1 (by decide)⟩

/-- C3: `setValue(next)` first resolves the candidate — applying `next` to
the current value when the runtime classifies it as a function, otherwise
taking `next` itself.  An identical candidate mutates nothing, dispatches
to zero listeners and returns the prior value; a different candidate is
stored, every registered listener is invoked in insertion order with the
new value as sole argument, and the new value is returned. -/
theorem c3_setValue_semantics {V : Type} [DecidableEq V]
    (isFn : V → Bool) (app : V → V → V) (st : VBState V) (v : V) :
    (vbCandidate isFn app st.value (VBOp.set v) = st.value →
      setValueVB isFn app st v = (st, [], st.value)) ∧
    (vbCandidate isFn app st.value (VBOp.set v) ≠ st.value →
      setValueVB isFn app st v =
        (VBState.mk (vbCandidate isFn app st.value (VBOp.set v)) st.listeners,
         st.listeners.map (fun l => (l, vbCandidate isFn app st.value (VBOp.set v))),
         vbCandidate isFn app st.value (VBOp.set v))) := by
  constructor <;> intro h <;>
    simp only [vbCandidate] at h <;> simp [setValueVB, vbCandidate, h]

/-- Witness for C3: on a source storing `5` with one listener `7` (values
never classified as functions), `setValue 5` is a silent no-op and
`setValue 6` stores `6`, dispatches `(7, 6)` and returns `6`. -/
theorem c3_setValue_semantics_witness :
    setValueVB (fun _ => false) (fun a _ => a) (VBState.mk 5 [7]) 5 =
      (VBState.mk 5 [7], [], 5) ∧
    setValueVB (fun _ => false) (fun a _ => a) (VBState.mk 5 [7]) 6 =
      (VBState.mk 6 [7], [(7, 6)], 6) := by
  constructor
  · exact (c3_setValue_semantics (fun _ => false) (fun a _ => a)
      (VBState.mk 5 [7]) 5).1 (by decide)
  · exact (c3_setValue_semantics (fun _ => false) (fun a _ => a)
      (VBState.mk 5 [7]) 6).2 (by decide)

/-- C4: for a literal (not function-classified) value `v`, the raw
`trigger(v)` performs the same equality check, the same state mutation and
the same listener dispatch as `setValue(v)`: the resulting state and the
invocation sequence coincide. -/
theorem c4_trigger_setValue_agree {V : Type} [DecidableEq V]
    (isFn : V → Bool) (app : V → V → V) (st : VBState V) (v : V)
    (h : isFn v = false) :
    (setValueVB isFn app st v).1 = (triggerVB st v).1 ∧
    (setValueVB isFn app st v).2.1 = (triggerVB st v).2 := by
  by_cases hv : v = st.value
  · subst hv
    simp [setValueVB, triggerVB, h]
  · simp [setValueVB, triggerVB, h, hv]

/-- Witness for C4 on a source storing `5` with one listener `7`: for the
literal `6`, `setValue` and `trigger` produce the same state and the same
dispatch. -/
theorem c4_trigger_setValue_agree_witness :
    (setValueVB (fun _ => false) (fun a _ => a) (VBState.mk 5 [7]) 6).1 =
      (triggerVB (VBState.mk 5 [7]) 6).1 ∧
    (setValueVB (fun _ => false) (fun a _ => a) (VBState.mk 5 [7]) 6).2.1 =
      (triggerVB (VBState.mk 5 [7]) 6).2 :=
  c4_trigger_setValue_agree (fun _ => false) (fun a _ => a)
    (VBState.mk 5 [7]) 6 rfl

/-- C5: after any sequence of `setValue`/`trigger` calls, `getValue()`
returns the resolved candidate of the last successful call — the last call
whose candidate differed from the value stored at that moment — or the
initial value when no call succeeded. -/
theorem c5_value_invariant {V : Type} [DecidableEq V]
    (isFn : V → Bool) (app : V → V → V) (st : VBState V)
    (ops : List (VBOp V)) :
    getValueVB (runOps isFn app st ops) =
      (succCandidates isFn app st.value ops).getLastD st.value := by
  induction ops generalizing st with
  | nil => simp [runOps, succCandidates, getValueVB]
  | cons op rest ih =>
    rw [runOps, succCandidates]
    by_cases hc : vbCandidate isFn app st.value op = st.value
    · rw [stepOp_eq, if_pos hc, if_pos hc]
      exact ih st
    · rw [stepOp_eq, if_neg hc, if_neg hc, List.getLastD_cons]
      exact ih (VBState.mk (vbCandidate isFn app st.value op) st.listeners)

/-- C6: when no listener modifies the registry during dispatch, `trigger`
invokes exactly the registered listeners, in insertion order, once each,
with the trigger arguments passed through unchanged, and leaves the
registry as it was. -/
theorem c6_trigger_order {A : Type} (args : A) (act : Nat → LAct)
    (reg : List Nat) (h : ∀ l ∈ reg, act l = LAct.pass) :
    trigger act args reg = (reg, reg.map (fun l => (l, args))) := by
  unfold trigger
  simpa using dispatchAux_pass act args reg.length reg 0 (by omega)
    (by simpa using h)

/-- Witness for C6: three passive listeners `4`, `5`, `6` are invoked in
insertion order, once each, with the argument `42`. -/
theorem c6_trigger_order_witness :
    trigger (fun _ => LAct.pass) 42 [4, 5, 6] =
      ([4, 5, 6], [(4, 42), (5, 42), (6, 42)]) := by
  have h := c6_trigger_order 42 (fun _ => LAct.pass) [4, 5, 6]
    (fun l _ => rfl)
  simpa using h

/-- C7: registering the same listener twice (whether through `addListener`
or the callable `evt` form) appends two occurrences; a trigger then invokes
it once per occurrence in insertion order; and each `removeListener` or
remover call removes exactly the first occurrence identical to the
listener, preserving the order of the remaining entries. -/
theorem c7_duplicate_registrations {A : Type} (args : A) (act : Nat → LAct)
    (reg : List Nat) (f : Nat) (hact : ∀ l, act l = LAct.pass) :
    evtRegister (addListener reg f) f = reg ++ [f, f] ∧
    (trigger act args (reg ++ [f, f])).2 =
      (reg.map (fun l => (l, args))) ++ [(f, args), (f, args)] ∧
    (∀ pre post (g : Nat), g ∉ pre →
      removeListener (pre ++ g :: post) g = pre ++ post ∧
      removerCall (pre ++ g :: post) g = pre ++ post) := by
  refine ⟨?_, ?_, ?_⟩
  · simp [evtRegister, addListener]
  · have h := dispatchAux_pass act args (reg ++ [f, f]).length (reg ++ [f, f]) 0
      (by omega) (by intro l _; exact hact l)
    unfold trigger
    rw [h]
    simp
  · intro pre post g hg
    constructor <;>
      simp [removeListener, removerCall, aryRemoveItem_first pre post g hg]

/-- Witness for C7: listener `3` registered twice after `8` is invoked
twice in order, and removal takes out only the first occurrence. -/
theorem c7_duplicate_registrations_witness :
    evtRegister (addListener [8] 3) 3 = [8] ++ [3, 3] ∧
    (trigger (fun _ => LAct.pass) () ([8] ++ [3, 3])).2 =
      ([8].map (fun l => (l, ()))) ++ [(3, ()), (3, ())] ∧
    (∀ pre post (g : Nat), g ∉ pre →
      removeListener (pre ++ g :: post) g = pre ++ post ∧
      removerCall (pre ++ g :: post) g = pre ++ post) :=
  c7_duplicate_registrations () (fun _ => LAct.pass) [8] 3 (fun _ => rfl)

/-- C8: `removeListener(f)` removes the first registry entry identical to
`f`; when no entry is identical to `f` — in particular when `f` was never
registered or was already removed — the registry is returned unchanged
(the scan simply ends with `false`; the operation is total and raises no
error). -/
theorem c8_removeListener_unregistered (reg : List Nat) (f : Nat) :
    (f ∉ reg → removeListener reg f = reg) ∧
    (∀ pre post, reg = pre ++ f :: post → f ∉ pre →
      removeListener reg f = pre ++ post) := by
  constructor
  · intro h
    simp [removeListener, aryRemoveItem_not_mem h]
  · intro pre post hre hfp
    subst hre
    simp [removeListener, aryRemoveItem_first pre post f hfp]

/-- Witness for C8: removing the unregistered listener `5` from `[7, 9]`
is a no-op, and removing `7` removes exactly its first occurrence. -/
theorem c8_removeListener_unregistered_witness :
    removeListener [7, 9] 5 = [7, 9] ∧ removeListener [7, 9] 7 = [9] :=
  ⟨(c8_removeListener_unregistered [7, 9] 5).1 (by decide),
   (c8_removeListener_unregistered [7, 9] 7).2 [] [9] rfl (by decide)⟩

/-- C9: the combined remover returned by `joinRemoveListeners(r1,...,rn)`
calls every supplied remover exactly once each, in the order given — the
call log equals the supplied list — whatever each remover does to the
state, in particular regardless of whether any individual remover was
already a no-op; the final state is the left fold of their effects. -/
theorem c9_joinRemoveListeners {S : Type} (effOf : Nat → S → S)
    (rs : List Nat) (s : S) :
    (runJoined effOf rs s).2 = rs ∧
    (runJoined effOf rs s).1 = rs.foldl (fun t r => effOf r t) s := by
  induction rs generalizing s with
  | nil => exact ⟨rfl, rfl⟩
  | cons r rest ih =>
    refine ⟨?_, ?_⟩ <;> simp [runJoined, (ih (effOf r s)).1, (ih (effOf r s)).2]

/-- C10: on a value-backed source whose stored type admits function values,
`setValue` can never store a function argument directly: whenever the
runtime `typeof` check classifies the argument `v` as a function, `v` is
invoked with the current value and only its result `app v current` is used
as the candidate — the state mutation and dispatch are exactly those of the
raw `trigger` on that result, and the returned value is the old value when
the result is identical to it and the result otherwise. -/
theorem c10_function_argument_applied {V : Type} [DecidableEq V]
    (isFn : V → Bool) (app : V → V → V) (st : VBState V) (v : V)
    (h : isFn v = true) :
    (setValueVB isFn app st v).1 = (triggerVB st (app v st.value)).1 ∧
    (setValueVB isFn app st v).2.1 = (triggerVB st (app v st.value)).2 ∧
    (setValueVB isFn app st v).2.2 =
      (if app v st.value = st.value then st.value else app v st.value) := by
  refine ⟨?_, ?_, ?_⟩ <;> by_cases hv : app v st.value = st.value <;>
    simp [setValueVB, triggerVB, h, hv]

/-- Witness for C10: values equal to `9` are classified as functions and
application adds `1` to the current value; `setValue 9` on a source storing
`5` behaves exactly like `trigger 6`, storing `6` and dispatching `6`, not
`9`. -/
theorem c10_function_argument_applied_witness :
    (setValueVB (fun x => decide (x = 9)) (fun _ cur => cur + 1)
        (VBState.mk 5 [7]) 9).1 =
      (triggerVB (VBState.mk 5 [7]) ((fun _ cur => cur + 1) 9 5)).1 ∧
    (setValueVB (fun x => decide (x = 9)) (fun _ cur => cur + 1)
        (VBState.mk 5 [7]) 9).2.1 =
      (triggerVB (VBState.mk 5 [7]) ((fun _ cur => cur + 1) 9 5)).2 ∧
    (setValueVB (fun x => decide (x = 9)) (fun _ cur => cur + 1)
        (VBState.mk 5 [7]) 9).2.2 =
      (if (fun _ cur => cur + 1) 9 5 = 5 then 5 else (fun _ cur => cur + 1) 9 5) :=
  c10_function_argument_applied (fun x => decide (x = 9))
    (fun _ cur => cur + 1) (VBState.mk 5 [7]) 9 (by decide)
